import Mathlib

/-!
Shallow embedding of the event stream / pagination storage module
(`synapse/storage/stream.py`) and the lazy dependency container
(`synapse/server.py`).

The SQL `events` table is modelled as a list of `Event` records; a SQL
query is modelled as filter + sort + limit over that list.  Token strings
are handled at the `List Char` level because the relevant string functions
have to reduce inside the kernel.
-/

/-- Row of the `events` table as the engine sees it.  `state_key` stands for
the column obtained by the LEFT JOIN with `state_events` (none when no state
row exists), and `depth` duplicates `topological_ordering` as in the source
data model. -/
structure Event where
  event_id : String
  room_id : String
  type : String
  state_key : Option String
  stream_ordering : Int
  topological_ordering : Int
  depth : Int
  outlier : Bool
deriving DecidableEq, Repr

/-- A pagination cursor: stream tokens have `topological = none`, topological
tokens carry both components. -/
structure RoomStreamToken where
  topological : Option Int
  stream : Int
deriving DecidableEq, Repr

/-- Decimal digit value of a character, if it is a digit. -/
def digitVal (c : Char) : Option Nat :=
  if '0' ≤ c ∧ c ≤ '9' then some (c.toNat - '0'.toNat) else none

/-- Accumulate decimal digits; fails on any non-digit. -/
def parseNatAux : List Char → Nat → Option Nat
  | [], acc => some acc
  | c :: cs, acc =>
    match digitVal c with
    | some d => parseNatAux cs (acc * 10 + d)
    | none => none

/-- Parse a non-empty run of decimal digits. -/
def parseNatChars : List Char → Option Nat
  | [] => none
  | cs => parseNatAux cs 0

/-- Parse a signed decimal integer (optional leading minus sign). -/
def parseIntChars : List Char → Option Int
  | '-' :: rest => (parseNatChars rest).map fun n => -(n : Int)
  | cs => (parseNatChars cs).map fun n => (n : Int)

/-- Split a character list at the first dash, like Python `split('-', 1)`. -/
def splitAtDash : List Char → Option (List Char × List Char)
  | [] => none
  | '-' :: rest => some ([], rest)
  | c :: rest => (splitAtDash rest).map fun p => (c :: p.1, p.2)

/-- Modelled from the spec: `RoomStreamToken.parse` lives in `synapse/types.py`,
which is not part of the sample; per spec section 4.1 it accepts `"s{n}"` and
`"t{a}-{b}"` (splitting at the first dash, as Python `split('-', 1)` does) and
fails on anything else. -/
def RoomStreamToken.parse (s : String) : Option RoomStreamToken :=
  match s.data with
  | 's' :: rest => (parseIntChars rest).map fun n => ⟨none, n⟩
  | 't' :: rest =>
    match splitAtDash rest with
    | some p =>
      match parseIntChars p.1, parseIntChars p.2 with
      | some a, some b => some ⟨some a, b⟩
      | _, _ => none
    | none => none
  | _ => none

/-- Modelled from the spec: `parse_stream_token` accepts the same two wire
forms (spec section 4.1); call sites that want stream-only semantics read only
the `.stream` field of the result. -/
def RoomStreamToken.parse_stream_token (s : String) : Option RoomStreamToken :=
  RoomStreamToken.parse s

/-- Modelled from the spec: serialization of a token, `"s{n}"` for stream
tokens and `"t{a}-{b}"` for topological ones (spec sections 3 and 6). -/
def RoomStreamToken.toStr (t : RoomStreamToken) : String :=
  match t.topological with
  | some topo => "t" ++ toString topo ++ "-" ++ toString t.stream
  | none => "s" ++ toString t.stream

/-- The predicate denoted by the SQL fragment built by `lower_bound(token)`
in `stream.py`, evaluated at one row's `(topological_ordering,
stream_ordering)` columns. -/
def lower_bound (token : RoomStreamToken) (topo stream : Int) : Bool :=
  match token.topological with
  | none => decide (token.stream < stream)
  | some t =>
    decide (t < topo) || (decide (t = topo) && decide (token.stream < stream))

/-- The predicate denoted by the SQL fragment built by `upper_bound(token)`
in `stream.py`. -/
def upper_bound (token : RoomStreamToken) (topo stream : Int) : Bool :=
  match token.topological with
  | none => decide (token.stream ≥ stream)
  | some t =>
    decide (t > topo) || (decide (t = topo) && decide (token.stream ≥ stream))

/-- Strict lexicographic order on `(topological, stream)` pairs, the spec's
composite order. -/
def lexLt (a b : Int × Int) : Prop := a.1 < b.1 ∨ (a.1 = b.1 ∧ a.2 < b.2)

/-- Inclusive lexicographic order on `(topological, stream)` pairs. -/
def lexLe (a b : Int × Int) : Prop := a.1 < b.1 ∨ (a.1 = b.1 ∧ a.2 ≤ b.2)

/-- Ascending stream order (`ORDER BY stream_ordering ASC`). -/
abbrev streamLe (a b : Event) : Prop := a.stream_ordering ≤ b.stream_ordering

/-- Descending stream order (`ORDER BY stream_ordering DESC`). -/
abbrev streamGe (a b : Event) : Prop := b.stream_ordering ≤ a.stream_ordering

/-- Strict ascending stream order, used to express uniqueness of stream ids. -/
abbrev streamLt (a b : Event) : Prop := a.stream_ordering < b.stream_ordering

/-- Ascending composite order
(`ORDER BY topological_ordering ASC, stream_ordering ASC`). -/
abbrev compLe (a b : Event) : Prop :=
  a.topological_ordering < b.topological_ordering ∨
    (a.topological_ordering = b.topological_ordering ∧
      a.stream_ordering ≤ b.stream_ordering)

/-- Descending composite order. -/
abbrev compGe (a b : Event) : Prop := compLe b a

/-- Strict composite order between two rows. -/
def compLt (a b : Event) : Prop :=
  a.topological_ordering < b.topological_ordering ∨
    (a.topological_ordering = b.topological_ordering ∧
      a.stream_ordering < b.stream_ordering)

instance : IsTotal Event streamLe := ⟨fun a b => Int.le_total _ _⟩

instance : IsTrans Event streamLe := ⟨fun _ _ _ h1 h2 => le_trans h1 h2⟩

instance : IsTotal Event streamGe := ⟨fun a b => Int.le_total _ _⟩

instance : IsTrans Event streamGe := ⟨fun _ _ _ h1 h2 => le_trans h2 h1⟩

instance : IsTotal Event compLe := ⟨fun a b => by simp only [compLe]; omega⟩

instance : IsTrans Event compLe := ⟨fun a b c h1 h2 => by
  simp only [compLe] at h1 h2 ⊢; omega⟩

instance : IsTotal Event compGe := ⟨fun a b => total_of compLe b a⟩

instance : IsTrans Event compGe := ⟨fun a b c h1 h2 => IsTrans.trans c b a h2 h1⟩

/-- Lower-case one ASCII character, as Python `str.lower` does on the order
strings used here. -/
def lowerChar (c : Char) : Char :=
  if 'A' ≤ c ∧ c ≤ 'Z' then Char.ofNat (c.toNat + 32) else c

/-- The test `order.lower() == "desc"` from the source. -/
def orderDesc (order : String) : Bool :=
  order.data.map lowerChar == "desc".data

/-- A SQL `LIMIT` clause with parameter `limit`; a negative parameter means
no limit (SQLite semantics), zero selects no rows. -/
def sqlLimit (limit : Int) (l : List Event) : List Event :=
  if limit < 0 then l else l.take limit.toNat

/-- The `ORDER BY stream_ordering {order}` clause.  Only `ASC`/`DESC` occur
in the source; any other string would be a SQL error and is modelled as
ascending. -/
def sortByStream (order : String) (l : List Event) : List Event :=
  if orderDesc order then List.insertionSort streamGe l
  else List.insertionSort streamLe l

/-- The `ORDER BY topological_ordering {order}, stream_ordering {order}`
clause. -/
def sortByComposite (order : String) (l : List Event) : List Event :=
  if orderDesc order then List.insertionSort compGe l
  else List.insertionSort compLe l

/-- The events table. -/
abbrev DB := List Event

/-- Modelled from the spec: the `EventStore` collaborator (`_get_events` /
`_get_events_txn`, outside the sample) materializes full events from ids,
preserving the order of the id list and skipping unknown ids. -/
def get_events (db : DB) (event_ids : List String) : List Event :=
  event_ids.filterMap fun i => db.find? fun e => e.event_id == i

/-- An event as returned to the caller, with the mutable
`internal_metadata.before/after/order` annotations attached. -/
structure Annotated where
  event : Event
  before : String
  after : String
  order : Int × Int
deriving DecidableEq, Repr

/-- The per-pair body of `_set_before_and_after`: the event supplies `depth`
(in topological mode), the row supplies `stream_ordering`. -/
def annotateOne (topo_order : Bool) (p : Event × Event) : Annotated :=
  let stream := p.2.stream_ordering
  let topo : Option Int := if topo_order then some p.1.depth else none
  { event := p.1
    before := RoomStreamToken.toStr ⟨topo, stream - 1⟩
    after := RoomStreamToken.toStr ⟨topo, stream⟩
    order := (topo.getD 0, stream) }

/-- `_set_before_and_after(events, rows, topo_order)`: zip the materialized
events with the raw rows and attach cursors computed from each pair. -/
def set_before_and_after (events rows : List Event) (topo_order : Bool) :
    List Annotated :=
  (events.zip rows).map (annotateOne topo_order)

/-- Python truthiness of an optional integer (`if from_id:`). -/
def pyTruthyOptInt : Option Int → Bool
  | some v => v != 0
  | none => false

/-- Python truthiness of an optional string (`if to_key:`). -/
def pyTruthyOptStr : Option String → Bool
  | some s => s != ""
  | none => false

/-- `min(r["stream_ordering"] for r in rows)`; only evaluated on non-empty
row lists in the source. -/
def minStream : List Event → Int
  | [] => 0
  | x :: xs => xs.foldl (fun a e => min a e.stream_ordering) x.stream_ordering

/-- `max(r["stream_ordering"] for r in rows)`; only evaluated on non-empty
row lists in the source. -/
def maxStream : List Event → Int
  | [] => 0
  | x :: xs => xs.foldl (fun a e => max a e.stream_ordering) x.stream_ordering

/-- Result of `get_room_events_stream_for_room`, extended with two flags
recording whether the change cache was consulted and whether a database
interaction ran. -/
structure StreamForRoomResult where
  events : List Annotated
  key : Option String
  cache_checked : Bool
  db_queried : Bool
deriving DecidableEq, Repr

/-- `get_room_events_stream_for_room(room_id, from_key, to_key, limit,
order)`.  `has_entity_changed` stands for the room change cache
(`_events_stream_cache`), an external collaborator.  `none` is returned on a
token parse error. -/
def get_room_events_stream_for_room (db : DB)
    (has_entity_changed : String → Int → Bool) (room_id : String)
    (from_key : Option String) (to_key : String) (limit : Int)
    (order : String) : Option StreamForRoomResult :=
  let from_id_opt : Option (Option Int) :=
    match from_key with
    | some fk =>
      match RoomStreamToken.parse_stream_token fk with
      | some t => some (some t.stream)
      | none => none
    | none => some none
  match from_id_opt with
  | none => none
  | some from_id =>
    match RoomStreamToken.parse_stream_token to_key with
    | none => none
    | some to_tok =>
      let to_id := to_tok.stream
      if from_key = some to_key then
        some { events := [], key := from_key,
               cache_checked := false, db_queried := false }
      else if pyTruthyOptInt from_id
          && !(has_entity_changed room_id (from_id.getD 0)) then
        some { events := [], key := from_key,
               cache_checked := true, db_queried := false }
      else
        let rows :=
          match from_id with
          | some fid =>
            sqlLimit limit (sortByStream order (db.filter fun e =>
              e.room_id == room_id && !e.outlier
                && decide (fid < e.stream_ordering)
                && decide (e.stream_ordering ≤ to_id)))
          | none =>
            sqlLimit limit (sortByComposite order (db.filter fun e =>
              e.room_id == room_id && !e.outlier
                && decide (e.stream_ordering ≤ to_id)))
        let ret := get_events db (rows.map (·.event_id))
        let annotated := set_before_and_after ret rows from_id.isNone
        let annotated := if orderDesc order then annotated.reverse else annotated
        let key : Option String :=
          if rows.isEmpty then from_key
          else some ("s" ++ toString (minStream rows))
        some { events := annotated, key := key,
               cache_checked := pyTruthyOptInt from_id, db_queried := true }

/-- `EventTypes.Member`. -/
def EventTypesMember : String := "m.room.member"

/-- `MAX_STREAM_SIZE`. -/
def MAX_STREAM_SIZE : Int := 1000

/-- The filter-then-annotate step of `get_appservice_room_stream`: the
surviving events are materialized and then zipped against the *unfiltered*
row list by `_set_before_and_after` (with its default `topo_order=True`). -/
def appservice_filter_and_annotate (db : DB) (interested : Event → Bool)
    (rows : List Event) : List Annotated :=
  set_before_and_after
    (get_events db ((rows.filter interested).map (·.event_id))) rows true

/-- The limit normalization of `get_appservice_room_stream`:
`limit = max(limit, MAX_STREAM_SIZE)` when `limit` is truthy, else
`MAX_STREAM_SIZE`. -/
def appservice_limit (limit : Int) : Int :=
  if limit ≠ 0 then max limit MAX_STREAM_SIZE else MAX_STREAM_SIZE

/-- The SQL window fetched by `get_appservice_room_stream`: every event with
stream ordering in `(from_id, to_id]` (no room or outlier condition),
ascending by stream ordering, limited. -/
def appservice_window (db : DB) (from_id to_id : RoomStreamToken)
    (limit2 : Int) : List Event :=
  (List.insertionSort streamLe (db.filter fun e =>
    decide (from_id.stream < e.stream_ordering)
      && decide (e.stream_ordering ≤ to_id.stream))).take limit2.toNat

/-- `get_appservice_room_stream(service, from_key, to_key, limit)`.
`service_rooms` stands for the room ids from `_get_app_service_rooms_txn`
and `service_interested_in_user` for `service.is_interested_in_user`, both
external collaborators. -/
def get_appservice_room_stream (db : DB) (service_rooms : List String)
    (service_interested_in_user : Option String → Bool)
    (from_key to_key : String) (limit : Int) :
    Option (List Annotated × String) :=
  let limit2 := appservice_limit limit
  match RoomStreamToken.parse_stream_token from_key,
      RoomStreamToken.parse_stream_token to_key with
  | some from_id, some to_id =>
    if from_key = to_key then some ([], to_key)
    else
      let rows := appservice_window db from_id to_id limit2
      let app_service_interested := fun (r : Event) =>
        service_rooms.contains r.room_id
          || (r.type == EventTypesMember
              && service_interested_in_user r.state_key)
      let ret := appservice_filter_and_annotate db app_service_interested rows
      let key := if rows.isEmpty then to_key
        else "s" ++ toString (maxStream rows)
      some (ret, key)
  | _, _ => none

/-- `paginate_room_events(room_id, from_key, to_key, direction, limit)`. -/
def paginate_room_events (db : DB) (room_id : String) (from_key : String)
    (to_key : Option String) (direction : String) (limit : Int) :
    Option (List Annotated × String) :=
  match RoomStreamToken.parse from_key with
  | none => none
  | some ftok =>
    let boundsOpt : Option (Event → Bool) :=
      if direction = "b" then
        if pyTruthyOptStr to_key then
          match RoomStreamToken.parse (to_key.getD "") with
          | none => none
          | some ttok => some fun e =>
              upper_bound ftok e.topological_ordering e.stream_ordering
                && lower_bound ttok e.topological_ordering e.stream_ordering
        else some fun e =>
          upper_bound ftok e.topological_ordering e.stream_ordering
      else
        if pyTruthyOptStr to_key then
          match RoomStreamToken.parse (to_key.getD "") with
          | none => none
          | some ttok => some fun e =>
              lower_bound ftok e.topological_ordering e.stream_ordering
                && upper_bound ttok e.topological_ordering e.stream_ordering
        else some fun e =>
          lower_bound ftok e.topological_ordering e.stream_ordering
    match boundsOpt with
    | none => none
    | some bounds =>
      let order := if direction = "b" then "DESC" else "ASC"
      let sorted := sortByComposite order (db.filter fun e =>
        !e.outlier && e.room_id == room_id && bounds e)
      let rows := if limit > 0 then sorted.take limit.toNat else sorted
      let next_token :=
        match rows.getLast? with
        | some lastRow =>
          RoomStreamToken.toStr
            ⟨some lastRow.topological_ordering,
             if direction = "b" then lastRow.stream_ordering - 1
             else lastRow.stream_ordering⟩
        | none => if pyTruthyOptStr to_key then to_key.getD "" else from_key
      let events := get_events db (rows.map (·.event_id))
      some (set_before_and_after events rows true, next_token)

/-- The row selected by `_simple_select_one_txn` on `event_id` and
`room_id` in `_get_events_around_txn`. -/
def findPin (db : DB) (room_id event_id : String) : Option Event :=
  db.find? fun e => e.event_id == event_id && e.room_id == room_id

/-- The WHERE clause of the "before" context query of
`_get_events_around_txn`: same room and strictly before the pin in composite
order — with no condition on `outlier`. -/
def around_before_pred (room_id : String) (topo stream : Int) (e : Event) :
    Bool :=
  e.room_id == room_id
    && (decide (e.topological_ordering < topo)
        || (e.topological_ordering == topo
            && decide (e.stream_ordering < stream)))

/-- The WHERE clause of the "after" context query of
`_get_events_around_txn`. -/
def around_after_pred (room_id : String) (topo stream : Int) (e : Event) :
    Bool :=
  e.room_id == room_id
    && (decide (topo < e.topological_ordering)
        || (e.topological_ordering == topo
            && decide (stream < e.stream_ordering)))

/-- Result of `_get_events_around_txn`. -/
structure AroundResult where
  before_ids : List String
  start_token : String
  after_ids : List String
  end_token : String
deriving DecidableEq, Repr

/-- `_get_events_around_txn(room_id, event_id, before_limit, after_limit)`;
`none` when the pinned event is absent. -/
def get_events_around_txn (db : DB) (room_id event_id : String)
    (before_limit after_limit : Int) : Option AroundResult :=
  match findPin db room_id event_id with
  | none => none
  | some pin =>
    let topo := pin.topological_ordering
    let so := pin.stream_ordering
    let rowsB := sqlLimit before_limit
      (List.insertionSort compGe (db.filter (around_before_pred room_id topo so)))
    let start_token :=
      match rowsB.head? with
      | some r =>
        RoomStreamToken.toStr ⟨some r.topological_ordering, r.stream_ordering - 1⟩
      | none => RoomStreamToken.toStr ⟨some topo, so - 1⟩
    let rowsA := sqlLimit after_limit
      (List.insertionSort compLe (db.filter (around_after_pred room_id topo so)))
    let end_token :=
      match rowsA.getLast? with
      | some r =>
        RoomStreamToken.toStr ⟨some r.topological_ordering, r.stream_ordering⟩
      | none => RoomStreamToken.toStr ⟨some topo, so⟩
    some ⟨rowsB.map (·.event_id), start_token, rowsA.map (·.event_id), end_token⟩

/-- State of a `HomeServer` instance as the dependency methods see it:
`attrs` are the attributes set on the instance (first binding wins, as
`setattr`/`getattr` overwrite is modelled by consing), `building` is the
in-flight marker map `_building`, `nextId` generates fresh instance
identities, and `builderRuns` logs each invocation of a `build_X` method. -/
structure HS where
  attrs : List (String × Nat)
  building : List String
  nextId : Nat
  builderRuns : List String
deriving DecidableEq, Repr

/-- Outcome of a `get_X` call: the built or memoized instance, the
`ValueError` raised on a cyclic dependency (naming the dependency), or the
`NotImplementedError` when neither an attribute nor a builder exists. -/
inductive DepResult where
  | ok (v : Nat)
  | cyclic (name : String)
  | notImplemented (name : String)
deriving DecidableEq, Repr

/-- Run a builder body: resolve its dependency list left to right with the
given resolver, stopping at the first non-`ok` outcome (a Python exception
propagates, keeping all state mutations made so far). -/
def resolveSeq (f : HS → String → DepResult × HS) :
    HS → List String → Option DepResult × HS
  | s, [] => (none, s)
  | s, d :: ds =>
    match f s d with
    | (DepResult.ok _, s1) => resolveSeq f s1 ds
    | (e, s1) => (some e, s1)

/-- The `get_X` accessor generated by `_make_dependency_method`: return the
attribute if set; otherwise look up `build_X` (modelled by `B`, which gives
the list of dependencies that builder resolves in order); raise
`NotImplementedError` when there is no builder; raise the cyclic-dependency
`ValueError` when `X` is already marked in `_building`; otherwise mark `X`
in-flight, run the builder, memoize the fresh instance via `setattr`, and
clear the marker.  `fuel` bounds the recursion depth. -/
def resolve (B : String → Option (List String)) :
    Nat → HS → String → DepResult × HS
  | 0, s, d => (DepResult.cyclic d, s)
  | n + 1, s, d =>
    match s.attrs.lookup d with
    | some v => (DepResult.ok v, s)
    | none =>
      match B d with
      | none => (DepResult.notImplemented d, s)
      | some deps =>
        if d ∈ s.building then (DepResult.cyclic d, s)
        else
          let s1 : HS := { s with building := d :: s.building,
                                  builderRuns := s.builderRuns ++ [d] }
          match resolveSeq (resolve B n) s1 deps with
          | (some e, s2) => (e, s2)
          | (none, s2) =>
            (DepResult.ok s2.nextId,
             { attrs := (d, s2.nextId) :: s2.attrs, nextId := s2.nextId + 1,
               building := s2.building.erase d, builderRuns := s2.builderRuns })

/-- Build one concrete events-table row. -/
def mkEvent (eid room ty : String) (sk : Option String)
    (topo stream depth : Int) (out : Bool) : Event :=
  { event_id := eid, room_id := room, type := ty, state_key := sk,
    stream_ordering := stream, topological_ordering := topo,
    depth := depth, outlier := out }

/-- Room R with events e1..e5, stream orderings 1..5, depths 1..5, no
outliers (the scenario shared by C1, C2 and C4). -/
def dbR : DB :=
  [ mkEvent "e1" "R" "m.room.message" none 1 1 1 false,
    mkEvent "e2" "R" "m.room.message" none 2 2 2 false,
    mkEvent "e3" "R" "m.room.message" none 3 3 3 false,
    mkEvent "e4" "R" "m.room.message" none 4 4 4 false,
    mkEvent "e5" "R" "m.room.message" none 5 5 5 false ]

/-- Unrelated message at stream 1 in the app-service scenario of C3/C9. -/
def as1 : Event := mkEvent "e1" "R" "m.room.message" none 1 1 1 false

/-- Join of user @u at stream 2 in the app-service scenario of C3/C9. -/
def as2 : Event := mkEvent "e2" "R" "m.room.member" (some "@u:hs") 2 2 2 false

/-- Unrelated message at stream 3 in the app-service scenario of C3/C9. -/
def as3 : Event := mkEvent "e3" "R" "m.room.message" none 3 3 3 false

/-- The app-service scenario table. -/
def db3 : DB := [as1, as2, as3]

/-- Interest predicate of a service interested exactly in user @u (via
membership events), used in the C3/C9 scenario. -/
def interestedU (r : Event) : Bool :=
  r.type == EventTypesMember && r.state_key == some "@u:hs"

/-- Whether a returned batch is ascending in the composite order. -/
def ascendingComposite : List Event → Bool
  | [] => true
  | [_] => true
  | a :: b :: rest => decide (compLe a b) && ascendingComposite (b :: rest)

/-- Same-room events at stream orderings 1 and 3 (an event of another room
holds stream 2), used against C7. -/
def g1 : Event := mkEvent "g1" "R" "m.room.message" none 1 1 1 false

/-- Second event of the C7 counterexample scenario. -/
def g2 : Event := mkEvent "g2" "R" "m.room.message" none 1 3 1 false

/-- The C7 counterexample batch. -/
def dbG : DB := [g1, g2]

/-- Consecutive same-depth events for the C7 witness. -/
def h1ev : Event := mkEvent "h1" "R" "m.room.message" none 5 1 5 false

/-- Second event of the C7 witness scenario. -/
def h2ev : Event := mkEvent "h2" "R" "m.room.message" none 5 2 5 false

/-- The C7 witness batch. -/
def dbH : DB := [h1ev, h2ev]

/-- Pinned event of the context-window scenario (C10). -/
def p10 : Event := mkEvent "p" "R" "m.room.message" none 3 3 3 false

/-- Outlier strictly before the pin in composite order (C10). -/
def o10b : Event := mkEvent "ob" "R" "m.room.message" none 2 2 2 true

/-- Outlier strictly after the pin in composite order (C10). -/
def o10a : Event := mkEvent "oa" "R" "m.room.message" none 4 4 4 true

/-- The context-window scenario table (C10). -/
def db10 : DB := [o10b, p10, o10a]

/-- Concrete builder table for the C8 witness: "a" has a builder with no
dependencies, "b" builds on "a", "c" builds on itself, everything else has
no builder. -/
def Btest : String → Option (List String) :=
  fun d => if d = "a" then some [] else if d = "b" then some ["a"]
    else if d = "c" then some ["c"] else none
/-- C5: `lower_bound(T)` selects exactly the rows strictly greater than `T`
(plain stream comparison for stream tokens, strict lexicographic comparison
for topological tokens), and `upper_bound(T)` selects exactly the rows less
than or equal to `T` (inclusive comparison); the low side is strict and the
high side inclusive. -/
theorem c5_bound_predicates (t : RoomStreamToken) (topo stream : Int) :
    (lower_bound t topo stream = true ↔
      (match t.topological with
       | none => t.stream < stream
       | some tt => lexLt (tt, t.stream) (topo, stream))) ∧
    (upper_bound t topo stream = true ↔
      (match t.topological with
       | none => stream ≤ t.stream
       | some tt => lexLe (topo, stream) (tt, t.stream))) := by
  obtain ⟨tt, s⟩ := t
  cases tt with
  | none =>
    constructor <;> simp [lower_bound, upper_bound]
  | some a =>
    constructor <;> simp [lower_bound, upper_bound, lexLt, lexLe] <;> omega

/-- Witness for C5 at a concrete topological token and row. -/
theorem c5_bound_predicates_witness :
    (lower_bound ⟨some 2, 5⟩ 3 0 = true ↔ lexLt (2, 5) (3, 0)) ∧
    (upper_bound ⟨some 2, 5⟩ 3 0 = true ↔ lexLe (3, 0) (2, 5)) :=
  ⟨(c5_bound_predicates ⟨some 2, 5⟩ 3 0).1, (c5_bound_predicates ⟨some 2, 5⟩ 3 0).2⟩

/-- Zipping a list with itself pairs every element with itself. -/
theorem zip_self_eq (l : List Event) : l.zip l = l.map fun x => (x, x) := by
  induction l with
  | nil => rfl
  | cons x xs ih => simp [ih]

/-- When every row can be found back in the table by its id, materializing
the rows' ids returns exactly the rows. -/
theorem get_events_map_id (db : DB) :
    ∀ rows : List Event,
      (∀ r ∈ rows, db.find? (fun e => e.event_id == r.event_id) = some r) →
      get_events db (rows.map (·.event_id)) = rows
  | [], _ => rfl
  | x :: xs, h => by
    have hx := h x (List.mem_cons_self x xs)
    have ih := get_events_map_id db xs fun r hr => h r (List.mem_cons_of_mem _ hr)
    simp only [get_events, List.map_cons, List.filterMap_cons, hx]
    simp only [get_events] at ih
    rw [ih]

/-- Annotating a row list against itself keeps the events unchanged. -/
theorem set_self_map_event (rows : List Event) (b : Bool) :
    (set_before_and_after rows rows b).map (·.event) = rows := by
  simp only [set_before_and_after, zip_self_eq, List.map_map]
  have : ((fun x : Annotated => x.event) ∘ annotateOne b ∘ fun x : Event => (x, x)) =
      fun x : Event => x := by
    funext x
    rfl
  rw [this, List.map_id']

/-- Membership is preserved by the stream sort. -/
theorem mem_sortByStream {order : String} {l : List Event} {a : Event} :
    a ∈ sortByStream order l ↔ a ∈ l := by
  unfold sortByStream; split <;> exact List.mem_insertionSort _

/-- Membership is preserved by the composite sort. -/
theorem mem_sortByComposite {order : String} {l : List Event} {a : Event} :
    a ∈ sortByComposite order l ↔ a ∈ l := by
  unfold sortByComposite; split <;> exact List.mem_insertionSort _

/-- A row surviving the LIMIT clause was in the unlimited result. -/
theorem mem_sqlLimit {limit : Int} {l : List Event} {a : Event}
    (h : a ∈ sqlLimit limit l) : a ∈ l := by
  unfold sqlLimit at h
  split at h
  · exact h
  · exact List.mem_of_mem_take h

/-- The LIMIT clause preserves pairwise orderedness. -/
theorem sqlLimit_pairwise {r : Event → Event → Prop} {limit : Int}
    {l : List Event} (h : l.Pairwise r) : (sqlLimit limit l).Pairwise r := by
  unfold sqlLimit
  split
  · exact h
  · exact h.sublist (List.take_sublist _ _)

/-- A descending stream sort is pairwise descending. -/
theorem sortByStream_pairwise_desc {order : String} (l : List Event)
    (h : orderDesc order = true) : (sortByStream order l).Pairwise streamGe := by
  unfold sortByStream
  rw [h]
  exact List.sorted_insertionSort streamGe l

/-- An ascending stream sort is pairwise ascending. -/
theorem sortByStream_pairwise_asc {order : String} (l : List Event)
    (h : orderDesc order = false) : (sortByStream order l).Pairwise streamLe := by
  unfold sortByStream
  rw [h]
  exact List.sorted_insertionSort streamLe l

/-- A descending composite sort is pairwise descending. -/
theorem sortByComposite_pairwise_desc {order : String} (l : List Event)
    (h : orderDesc order = true) : (sortByComposite order l).Pairwise compGe := by
  unfold sortByComposite
  rw [h]
  exact List.sorted_insertionSort compGe l

/-- C1: on room R with events e1..e5 (streams 1..5, depths 1..5, no
outliers), `get_room_events_stream_for_room(R, "s2", "s5", 100, "ASC")` does
return e3, e4, e5 in that order, but the next token is "s3" (the minimum
stream ordering of the fetched rows), not "s5" as claimed. -/
theorem c1_counterexample :
    (get_room_events_stream_for_room dbR (fun _ _ => true) "R" (some "s2")
        "s5" 100 "ASC").map
      (fun r => (r.events.map fun a => a.event.event_id, r.key)) =
      some (["e3", "e4", "e5"], some "s3") ∧
    ¬ ((get_room_events_stream_for_room dbR (fun _ _ => true) "R" (some "s2")
        "s5" 100 "ASC").map
      (fun r => (r.events.map fun a => a.event.event_id, r.key)) =
      some (["e3", "e4", "e5"], some "s5")) := by
  constructor
  · decide
  · decide

/-- C1 amended: the call returns the events with stream orderings 3, 4, 5 in
that order and the next token "s3" (s + the minimum stream ordering over the
fetched rows). -/
theorem c1_amended :
    (get_room_events_stream_for_room dbR (fun _ _ => true) "R" (some "s2")
        "s5" 100 "ASC").map
      (fun r => (r.events.map fun a => a.event.event_id, r.key)) =
      some (["e3", "e4", "e5"], some "s3") := by
  decide

/-- C3: with rows e1, e2, e3 at streams 1..3 where only e2 (a join of a user
the service is interested in) survives the filter,
`get_appservice_room_stream(svc, "s0", "s3", 0)` returns [e2], but the next
token is "s3" — the maximum stream ordering over *all fetched rows*, not
"s2" (the maximum over the rows surviving the filter) as claimed. -/
theorem c3_counterexample :
    (get_appservice_room_stream db3 [] (fun sk => sk == some "@u:hs")
        "s0" "s3" 0).map
      (fun p => (p.1.map fun a => a.event.event_id, p.2)) =
      some (["e2"], "s3") ∧
    ¬ ((get_appservice_room_stream db3 [] (fun sk => sk == some "@u:hs")
        "s0" "s3" 0).map
      (fun p => (p.1.map fun a => a.event.event_id, p.2)) =
      some (["e2"], "s2")) := by
  constructor
  · decide
  · decide

/-- C3 amended: for every call to `get_appservice_room_stream` whose fetched
SQL window is non-empty, the next token is "s" followed by the maximum
stream ordering over all fetched rows, before the app-service interest
filtering; concretely the scenario call returns [e2] and next token "s3". -/
theorem c3_amended :
    (∀ (db : DB) (service_rooms : List String)
        (siu : Option String → Bool) (fk tk : String) (limit : Int)
        (ft tt : RoomStreamToken) (p : List Annotated × String),
      RoomStreamToken.parse_stream_token fk = some ft →
      RoomStreamToken.parse_stream_token tk = some tt →
      get_appservice_room_stream db service_rooms siu fk tk limit = some p →
      appservice_window db ft tt (appservice_limit limit) ≠ [] →
      p.2 = "s" ++ toString (maxStream
        (appservice_window db ft tt (appservice_limit limit)))) ∧
    (get_appservice_room_stream db3 [] (fun sk => sk == some "@u:hs")
        "s0" "s3" 0).map
      (fun p => (p.1.map fun a => a.event.event_id, p.2)) =
      some (["e2"], "s3") := by
  constructor
  · intro db sr siu fk tk limit ft tt p hfk htk hres hne
    unfold get_appservice_room_stream at hres
    simp only [hfk, htk] at hres
    by_cases heq : fk = tk
    · exfalso
      apply hne
      have htteq : ft = tt := by
        rw [heq] at hfk
        rw [hfk] at htk
        exact Option.some.inj htk
      subst htteq
      unfold appservice_window
      have hfil : db.filter (fun e =>
          decide (ft.stream < e.stream_ordering)
            && decide (e.stream_ordering ≤ ft.stream)) = [] := by
        rw [List.filter_eq_nil_iff]
        intro a ha hcontra
        rw [Bool.and_eq_true] at hcontra
        simp only [decide_eq_true_eq] at hcontra
        omega
      rw [hfil]
      rw [show List.insertionSort streamLe ([] : List Event) = [] from rfl]
      simp
    · rw [if_neg heq] at hres
      have hp := Option.some.inj hres
      rw [← hp]
      have hempty : (appservice_window db ft tt
          (appservice_limit limit)).isEmpty = false := by
        cases hw : appservice_window db ft tt (appservice_limit limit) with
        | nil => exact absurd hw hne
        | cons a l => rfl
      simp only [hempty, Bool.false_eq_true, if_false]
  · decide

/-- Witness for C3 amended at the app-service scenario: the token of the
concrete call is s + the maximum stream ordering over the fetched window. -/
theorem c3_amended_witness :
    (get_appservice_room_stream db3 [] (fun sk => sk == some "@u:hs")
        "s0" "s3" 0).map (fun p => p.2) =
      some ("s" ++ toString (maxStream
        (appservice_window db3 ⟨none, 0⟩ ⟨none, 3⟩ (appservice_limit 0)))) := by
  cases h : get_appservice_room_stream db3 [] (fun sk => sk == some "@u:hs")
      "s0" "s3" 0 with
  | none => exact absurd h (by decide)
  | some p =>
    have hm := c3_amended.1 db3 [] (fun sk => sk == some "@u:hs") "s0" "s3" 0
      ⟨none, 0⟩ ⟨none, 3⟩ p (by decide) (by decide) h (by decide)
    simpa using hm

/-- C4: `paginate_room_events(R, "t5-5", None, 'b', 2)` on room R with
events e1..e5 returns e5 and e4 (the upper bound is inclusive, so the event
at the from-token's own position is included) and next token "t4-3", not
[e3, e4] with next token "t3-2" as claimed. -/
theorem c4_counterexample :
    (paginate_room_events dbR "R" "t5-5" none "b" 2).map
      (fun p => (p.1.map fun a => a.event.event_id, p.2)) =
      some (["e5", "e4"], "t4-3") ∧
    ¬ ((paginate_room_events dbR "R" "t5-5" none "b" 2).map
        (fun p => p.2) = some "t3-2") := by
  constructor
  · decide
  · decide

/-- C4 amended: the call returns e5 and e4, in that (descending) order, and
the next token "t4-3" — the last returned row's topological ordering 4 and
its stream ordering 4 decremented by one. -/
theorem c4_amended :
    (paginate_room_events dbR "R" "t5-5" none "b" 2).map
      (fun p => (p.1.map fun a => a.event.event_id, p.2)) =
      some (["e5", "e4"], "t4-3") := by
  decide

/-- C2: the returned batch is not always ascending in composite order:
backward pagination over room R returns its events in descending composite
order ([e5, e4, e3, e2, e1]), refuting the universally quantified claim at
this input. -/
theorem c2_counterexample :
    (paginate_room_events dbR "R" "t5-5" none "b" (-1)).map
      (fun p => ascendingComposite (p.1.map (·.event))) = some false := by
  decide

/-- C2 amended: `get_room_events_stream_for_room` (incremental reads, with a
from token) returns its batch ascending in *stream* order regardless of the
internal ASC/DESC query direction (the DESC result is reversed in memory);
`paginate_room_events`, however, returns its batch in the internal query
order, which for direction 'b' is *descending* composite order.  Both parts
assume the table resolves each row's id back to that row (ids unique). -/
theorem c2_amended :
    (∀ (db : DB) (cache : String → Int → Bool) (room fk tk : String)
        (limit : Int) (order : String) (res : StreamForRoomResult),
      (∀ r ∈ db, db.find? (fun e => e.event_id == r.event_id) = some r) →
      get_room_events_stream_for_room db cache room (some fk) tk limit order =
        some res →
      (res.events.map (·.event)).Pairwise streamLe) ∧
    (∀ (db : DB) (room fk : String) (tk : Option String) (limit : Int)
        (evs : List Annotated) (tok : String),
      (∀ r ∈ db, db.find? (fun e => e.event_id == r.event_id) = some r) →
      paginate_room_events db room fk tk "b" limit = some (evs, tok) →
      (evs.map (·.event)).Pairwise compGe) := by
  constructor
  · intro db cache room fk tk limit order res hfind hres
    unfold get_room_events_stream_for_room at hres
    cases hfk : RoomStreamToken.parse_stream_token fk with
    | none =>
      simp only [hfk] at hres
      exact Option.noConfusion hres
    | some ft =>
      simp only [hfk] at hres
      cases htk : RoomStreamToken.parse_stream_token tk with
      | none =>
        simp only [htk] at hres
        exact Option.noConfusion hres
      | some tt =>
        simp only [htk] at hres
        by_cases heq : (some fk : Option String) = some tk
        · rw [if_pos heq] at hres
          cases hres
          simp
        · rw [if_neg heq] at hres
          by_cases hcache : (pyTruthyOptInt (some ft.stream)
              && !cache room ((some ft.stream).getD 0)) = true
          · rw [if_pos hcache] at hres
            cases hres
            simp
          · rw [if_neg hcache] at hres
            cases hres
            simp only
            set rows := sqlLimit limit (sortByStream order (db.filter fun e =>
              e.room_id == room && !e.outlier
                && decide (ft.stream < e.stream_ordering)
                && decide (e.stream_ordering ≤ tt.stream))) with hrows
            have hsub : ∀ r ∈ rows, r ∈ db := fun r hr =>
              List.mem_of_mem_filter (mem_sortByStream.mp (mem_sqlLimit hr))
            have hret : get_events db (rows.map (·.event_id)) = rows :=
              get_events_map_id db rows fun r hr => hfind r (hsub r hr)
            rw [hret]
            by_cases hdesc : orderDesc order = true
            · rw [if_pos hdesc]
              rw [List.map_reverse, set_self_map_event]
              rw [List.pairwise_reverse]
              exact sqlLimit_pairwise (sortByStream_pairwise_desc _ hdesc)
            · rw [if_neg hdesc]
              rw [set_self_map_event]
              exact sqlLimit_pairwise
                (sortByStream_pairwise_asc _ (Bool.of_not_eq_true hdesc))
  · intro db room fk tk limit evs tok hfind hres
    have hmain : ∀ rows : List Event, rows.Pairwise compGe → (∀ r ∈ rows, r ∈ db) →
        ((set_before_and_after (get_events db (rows.map (·.event_id))) rows
          true).map (·.event)).Pairwise compGe := by
      intro rows h1 h2
      rw [get_events_map_id db rows fun r hr => hfind r (h2 r hr), set_self_map_event]
      exact h1
    have hdesc : ∀ (p : Event → Bool),
        (if limit > 0 then
          List.take limit.toNat (sortByComposite "DESC" (db.filter p))
        else sortByComposite "DESC" (db.filter p)).Pairwise compGe := by
      intro p
      split
      · exact (sortByComposite_pairwise_desc _ (by decide)).sublist
          (List.take_sublist _ _)
      · exact sortByComposite_pairwise_desc _ (by decide)
    have hsub : ∀ (p : Event → Bool),
        ∀ r ∈ (if limit > 0 then
          List.take limit.toNat (sortByComposite "DESC" (db.filter p))
        else sortByComposite "DESC" (db.filter p)), r ∈ db := by
      intro p r hr
      split at hr
      · exact List.mem_of_mem_filter
          (mem_sortByComposite.mp (List.mem_of_mem_take hr))
      · exact List.mem_of_mem_filter (mem_sortByComposite.mp hr)
    unfold paginate_room_events at hres
    cases hfk : RoomStreamToken.parse fk with
    | none =>
      simp only [hfk] at hres
      exact Option.noConfusion hres
    | some ft =>
      by_cases htk : pyTruthyOptStr tk = true
      · cases htt : RoomStreamToken.parse (tk.getD "") with
        | none => simp [hfk, htk, htt] at hres
        | some ttok =>
          simp only [hfk, htk, htt, if_true, Option.some.injEq,
            Prod.mk.injEq] at hres
          obtain ⟨hevs, htok⟩ := hres
          rw [← hevs]
          exact hmain _ (hdesc _) (hsub _)
      · rw [Bool.not_eq_true] at htk
        simp only [hfk, htk, Bool.false_eq_true, if_false, if_true,
          Option.some.injEq, Prod.mk.injEq] at hres
        obtain ⟨hevs, htok⟩ := hres
        rw [← hevs]
        exact hmain _ (hdesc _) (hsub _)

/-- Witness for C2 amended: a concrete DESC incremental read over room R
yields an ascending batch. -/
theorem c2_amended_witness :
    (get_room_events_stream_for_room dbR (fun _ _ => true) "R" (some "s2")
        "s5" 100 "DESC").elim True
      (fun res => (res.events.map (·.event)).Pairwise streamLe) := by
  cases h : get_room_events_stream_for_room dbR (fun _ _ => true) "R"
      (some "s2") "s5" 100 "DESC" with
  | none => exact trivial
  | some res =>
    simpa using c2_amended.1 dbR (fun _ _ => true) "R" "s2" "s5" 100 "DESC"
      res (by decide) h

/-- C6: whenever from and to tokens are the same (valid) string,
`get_room_events_stream_for_room` returns the empty batch with the from
token unchanged, without consulting the change cache and without running a
database interaction — for every table, cache, room, limit and order. -/
theorem c6_equal_tokens_short_circuit (db : DB)
    (cache : String → Int → Bool) (room_id k : String) (limit : Int)
    (order : String) (t : RoomStreamToken)
    (hparse : RoomStreamToken.parse_stream_token k = some t) :
    get_room_events_stream_for_room db cache room_id (some k) k limit order =
      some { events := [], key := some k,
             cache_checked := false, db_queried := false } := by
  unfold get_room_events_stream_for_room
  simp [hparse]

/-- Witness for C6: a concrete equal-token read on room R. -/
theorem c6_equal_tokens_short_circuit_witness :
    get_room_events_stream_for_room dbR (fun _ _ => true) "R" (some "s2")
        "s2" 100 "ASC" =
      some { events := [], key := some "s2",
             cache_checked := false, db_queried := false } :=
  c6_equal_tokens_short_circuit dbR (fun _ _ => true) "R" "s2" 100 "ASC"
    ⟨none, 2⟩ (by decide)

/-- C7: adjacent annotated events do not always compose: in a batch of two
same-room events at stream orderings 1 and 3 (stream 2 being taken by
another room), the first event's after cursor is "s1" while the second
event's before cursor is "s2". -/
theorem c7_counterexample :
    (set_before_and_after dbG dbG false).map (fun a => (a.before, a.after)) =
      [("s0", "s1"), ("s2", "s3")] ∧
    ((set_before_and_after dbG dbG false).map (·.after)).head? =
      some "s1" ∧
    ((set_before_and_after dbG dbG false).map (·.before)).getLast? =
      some "s2" ∧
    ("s1" : String) ≠ "s2" := by
  refine ⟨by decide, by decide, by decide, by decide⟩

/-- C7 amended: for two adjacent events x, y of a batch annotated by
`_set_before_and_after`, the annotation `x.after` equals `y.before` exactly
under the conditions the cursor arithmetic needs: the two underlying rows
have consecutive stream orderings and, in topological mode, the two events
have equal depth. -/
theorem c7_amended (events rows : List Event) (b : Bool)
    (pre post : List Annotated) (x y : Annotated)
    (hdecomp : set_before_and_after events rows b = pre ++ x :: y :: post)
    (hstream : y.order.2 = x.order.2 + 1)
    (hdepth : b = true → x.event.depth = y.event.depth) :
    x.after = y.before := by
  have hx : x ∈ set_before_and_after events rows b := by
    rw [hdecomp]
    simp
  have hy : y ∈ set_before_and_after events rows b := by
    rw [hdecomp]
    simp
  rw [set_before_and_after] at hx hy
  obtain ⟨px, -, hpx⟩ := List.mem_map.mp hx
  obtain ⟨py, -, hpy⟩ := List.mem_map.mp hy
  rw [← hpx, ← hpy] at hstream hdepth ⊢
  cases b with
  | false =>
    simp only [annotateOne, Bool.false_eq_true, if_false, Option.getD] at hstream ⊢
    have hs : px.2.stream_ordering = py.2.stream_ordering - 1 := by omega
    rw [hs]
  | true =>
    simp only [annotateOne, if_true, Option.getD] at hstream hdepth ⊢
    have hs : px.2.stream_ordering = py.2.stream_ordering - 1 := by omega
    rw [hs, hdepth trivial]

/-- Witness for C7 amended: two same-room events at consecutive stream
orderings 1 and 2 with equal depth compose. -/
theorem c7_amended_witness :
    (annotateOne true (h1ev, h1ev)).after = (annotateOne true (h2ev, h2ev)).before :=
  c7_amended dbH dbH true [] [] (annotateOne true (h1ev, h1ev))
    (annotateOne true (h2ev, h2ev)) (by decide) (by decide) (fun _ => by decide)

/-- A builder body never produces a propagated `ok`: only exceptions
propagate out of `resolveSeq`. -/
theorem resolveSeq_not_ok (f : HS → String → DepResult × HS) :
    ∀ (ds : List String) (s : HS) (e : DepResult) (s3 : HS),
      resolveSeq f s ds = (some e, s3) → ∀ w, e ≠ DepResult.ok w := by
  intro ds
  induction ds with
  | nil =>
    intro s e s3 h
    simp [resolveSeq] at h
  | cons d rest ih =>
    intro s e s3 h
    rw [resolveSeq] at h
    cases hf : f s d with
    | mk r s1 =>
      rw [hf] at h
      cases r with
      | ok w => exact ih s1 e s3 h
      | cyclic nm =>
        simp only [Option.some.injEq, Prod.mk.injEq] at h
        rw [← h.1]
        intro w hw
        exact DepResult.noConfusion hw
      | notImplemented nm =>
        simp only [Option.some.injEq, Prod.mk.injEq] at h
        rw [← h.1]
        intro w hw
        exact DepResult.noConfusion hw

/-- After a successful resolution the instance is stored as an attribute. -/
theorem resolve_ok_lookup (B : String → Option (List String)) (n : Nat)
    (s : HS) (d : String) (v : Nat) (s2 : HS)
    (h : resolve B n s d = (DepResult.ok v, s2)) :
    s2.attrs.lookup d = some v := by
  match n with
  | 0 => simp [resolve] at h
  | Nat.succ m =>
    rw [resolve] at h
    cases hl : s.attrs.lookup d with
    | some w =>
      simp only [hl] at h
      simp only [Prod.mk.injEq, DepResult.ok.injEq] at h
      rw [← h.2, hl, h.1]
    | none =>
      simp only [hl] at h
      cases hB : B d with
      | none =>
        simp only [hB] at h
        simp at h
      | some deps =>
        simp only [hB] at h
        by_cases hmem : d ∈ s.building
        · rw [if_pos hmem] at h
          simp at h
        · rw [if_neg hmem] at h
          cases hseq : resolveSeq (resolve B m)
              { s with building := d :: s.building,
                       builderRuns := s.builderRuns ++ [d] } deps with
          | mk oe s3 =>
            cases oe with
            | some e =>
              simp only [hseq, Prod.mk.injEq] at h
              exact absurd h.1 (resolveSeq_not_ok _ deps _ e s3 hseq v)
            | none =>
              simp only [hseq, Prod.mk.injEq, DepResult.ok.injEq] at h
              rw [← h.2, ← h.1]
              simp [List.lookup]

/-- C8: the container marks a dependency in-flight while its builder runs, a
resolution re-entered while the dependency is marked fails with the
cyclic-dependency error naming it, and a successful construction is memoized
so that a later resolution returns the same instance from the same state
without re-running any builder (the builder-run log is unchanged). -/
theorem c8_dependency_container :
    (∀ (B : String → Option (List String)) (n : Nat) (s : HS) (d : String)
        (deps : List String),
      s.attrs.lookup d = none → B d = some deps → d ∈ s.building →
      resolve B (n + 1) s d = (DepResult.cyclic d, s)) ∧
    (∀ (B : String → Option (List String)) (n m : Nat) (s : HS) (d : String)
        (v : Nat) (s2 : HS),
      resolve B n s d = (DepResult.ok v, s2) →
      resolve B (m + 1) s2 d = (DepResult.ok v, s2)) ∧
    (∀ (B : String → Option (List String)) (n : Nat) (s : HS) (d : String)
        (rest : List String),
      s.attrs.lookup d = none → B d = some (d :: rest) → d ∉ s.building →
      resolve B (n + 2) s d =
        (DepResult.cyclic d,
         { s with building := d :: s.building,
                  builderRuns := s.builderRuns ++ [d] })) := by
  refine ⟨?_, ?_, ?_⟩
  · intro B n s d deps hl hB hmem
    rw [resolve]
    simp only [hl, hB]
    rw [if_pos hmem]
  · intro B n m s d v s2 h
    have hl := resolve_ok_lookup B n s d v s2 h
    rw [resolve]
    simp only [hl]
  · intro B n s d rest hl hB hmem
    have hl2 : List.lookup d ({ s with
        building := d :: s.building,
        builderRuns := s.builderRuns ++ [d] } : HS).attrs = none := hl
    have hcyc : resolve B (n + 1)
        { s with building := d :: s.building,
                 builderRuns := s.builderRuns ++ [d] } d =
        (DepResult.cyclic d,
         { s with building := d :: s.building,
                  builderRuns := s.builderRuns ++ [d] }) := by
      rw [resolve]
      simp only [hl2, hB]
      rw [if_pos (List.mem_cons_self d s.building)]
    rw [resolve]
    simp only [hl, hB]
    rw [if_neg hmem]
    simp only [resolveSeq, hcyc]

/-- Witness for C8 at the concrete builder table `Btest`: (a) the in-flight
marker makes a re-entered resolution of "a" fail; (b) a second resolution of
"a" after a successful build returns the memoized instance from the same
state; (c) the self-dependent builder of "c" fails with the
cyclic-dependency error naming "c", with "c" marked in-flight. -/
theorem c8_dependency_container_witness :
    resolve Btest 3 ⟨[], ["a"], 0, []⟩ "a" =
      (DepResult.cyclic "a", ⟨[], ["a"], 0, []⟩) ∧
    resolve Btest 4 ⟨[("a", 0)], [], 1, ["a"]⟩ "a" =
      (DepResult.ok 0, ⟨[("a", 0)], [], 1, ["a"]⟩) ∧
    resolve Btest 5 ⟨[], [], 0, []⟩ "c" =
      (DepResult.cyclic "c", ⟨[], ["c"], 0, ["c"]⟩) :=
  ⟨c8_dependency_container.1 Btest 2 ⟨[], ["a"], 0, []⟩ "a" [] (by decide)
      (by decide) (by decide),
   c8_dependency_container.2.1 Btest 6 3 ⟨[], [], 0, []⟩ "a" 0
      ⟨[("a", 0)], [], 1, ["a"]⟩ (by decide),
   c8_dependency_container.2.2 Btest 3 ⟨[], [], 0, []⟩ "c" [] (by decide)
      (by decide) (by decide)⟩

/-- On a strictly stream-ascending row list, filtering before zipping shifts
positions: if the filter removes a row that precedes a surviving row, some
pair of the zip of survivors against all rows holds two rows with different
stream orderings. -/
theorem zip_filter_mismatch :
    ∀ (rows : List Event) (p : Event → Bool),
      rows.Pairwise streamLt →
      (∃ l1 x l2, rows = l1 ++ x :: l2 ∧ p x = false ∧ ∃ y ∈ l2, p y = true) →
      ∃ pr ∈ (rows.filter p).zip rows,
        pr.1.stream_ordering ≠ pr.2.stream_ordering := by
  intro rows
  induction rows with
  | nil =>
    rintro p - ⟨l1, x, l2, heq, -, -⟩
    exact absurd heq (by simp)
  | cons a rest ih =>
    rintro p hpw ⟨l1, x, l2, heq, hpx, y, hy, hpy⟩
    obtain ⟨ha, hrest⟩ := List.pairwise_cons.mp hpw
    by_cases hpa : p a = true
    · cases l1 with
      | nil =>
        simp only [List.nil_append, List.cons.injEq] at heq
        rw [heq.1] at hpa
        rw [hpa] at hpx
        exact absurd hpx (by simp)
      | cons b l1t =>
        simp only [List.cons_append, List.cons.injEq] at heq
        obtain ⟨pr, hpr, hne⟩ :=
          ih p hrest ⟨l1t, x, l2, heq.2, hpx, y, hy, hpy⟩
        refine ⟨pr, ?_, hne⟩
        rw [List.filter_cons_of_pos hpa, List.zip_cons_cons]
        exact List.mem_cons_of_mem _ hpr
    · rw [Bool.not_eq_true] at hpa
      have hyrest : y ∈ rest := by
        cases l1 with
        | nil =>
          simp only [List.nil_append, List.cons.injEq] at heq
          rw [heq.2]
          exact hy
        | cons b l1t =>
          simp only [List.cons_append, List.cons.injEq] at heq
          rw [heq.2]
          exact List.mem_append_right _ (List.mem_cons_of_mem _ hy)
      have hymem : y ∈ rest.filter p := List.mem_filter.mpr ⟨hyrest, hpy⟩
      cases hfp : rest.filter p with
      | nil =>
        rw [hfp] at hymem
        exact absurd hymem (List.not_mem_nil y)
      | cons z zs =>
        have hzrest : z ∈ rest := by
          have : z ∈ rest.filter p := by
            rw [hfp]
            exact List.mem_cons_self z zs
          exact List.mem_of_mem_filter this
        have hlt := ha z hzrest
        refine ⟨(z, a), ?_, ?_⟩
        · rw [List.filter_cons_of_neg (by simp [hpa]), hfp, List.zip_cons_cons]
          exact List.mem_cons_self _ _
        · show z.stream_ordering ≠ a.stream_ordering
          have hlt2 : a.stream_ordering < z.stream_ordering := hlt
          omega

/-- C9: in `get_appservice_room_stream` the before/after/order annotations
are attached positionally — the annotated batch is the zip of the surviving
events against the unfiltered rows — so whenever the interest filter removes
a row preceding a surviving row, some returned event carries cursors computed
from a different event's stream ordering than its own. -/
theorem c9_positional_annotations (db : DB) (p : Event → Bool)
    (rows : List Event)
    (hfind : ∀ r ∈ rows, db.find? (fun e => e.event_id == r.event_id) = some r)
    (hsorted : rows.Pairwise streamLt) :
    appservice_filter_and_annotate db p rows =
      ((rows.filter p).zip rows).map (annotateOne true) ∧
    ((∃ l1 x l2, rows = l1 ++ x :: l2 ∧ p x = false ∧ ∃ y ∈ l2, p y = true) →
      ∃ a ∈ appservice_filter_and_annotate db p rows,
        a.order.2 ≠ a.event.stream_ordering) := by
  have hg : get_events db ((rows.filter p).map (·.event_id)) = rows.filter p :=
    get_events_map_id db _ fun r hr => hfind r (List.mem_of_mem_filter hr)
  constructor
  · rw [appservice_filter_and_annotate, hg, set_before_and_after]
  · intro hdec
    obtain ⟨pr, hpr, hne⟩ := zip_filter_mismatch rows p hsorted hdec
    refine ⟨annotateOne true pr, ?_, ?_⟩
    · rw [appservice_filter_and_annotate, hg, set_before_and_after]
      exact List.mem_map_of_mem _ hpr
    · simp only [annotateOne]
      exact Ne.symm hne

/-- Witness for C9 on the app-service scenario: e1 (removed) precedes e2
(surviving), and the returned e2 carries e1's stream ordering 1 in its
cursors instead of its own stream ordering 2. -/
theorem c9_positional_annotations_witness :
    ∃ a ∈ appservice_filter_and_annotate db3 interestedU db3,
      a.order.2 ≠ a.event.stream_ordering :=
  (c9_positional_annotations db3 interestedU db3 (by decide) (by decide)).2
    ⟨[], as1, [as2, as3], rfl, by decide, as2, by decide, by decide⟩

/-- C10: the two context-window queries of `get_events_around` place no
condition on the outlier flag — an outlier in the same room strictly
before (resp. after) the pinned event's composite position and within the
limit appears in the before (resp. after) id list — unlike
`paginate_room_events` and `get_room_events_stream_for_room`, whose batches
never contain outliers. -/
theorem c10_outlier_context_window :
    (∀ (db : DB) (room eid : String) (blim alim : Int) (pin : Event)
        (res : AroundResult) (o : Event),
      findPin db room eid = some pin →
      get_events_around_txn db room eid blim alim = some res →
      o ∈ db → o.room_id = room → compLt o pin →
      (db.filter (around_before_pred room pin.topological_ordering
          pin.stream_ordering)).length ≤ blim.toNat →
      o.event_id ∈ res.before_ids) ∧
    (∀ (db : DB) (room eid : String) (blim alim : Int) (pin : Event)
        (res : AroundResult) (o : Event),
      findPin db room eid = some pin →
      get_events_around_txn db room eid blim alim = some res →
      o ∈ db → o.room_id = room → compLt pin o →
      (db.filter (around_after_pred room pin.topological_ordering
          pin.stream_ordering)).length ≤ alim.toNat →
      o.event_id ∈ res.after_ids) ∧
    (∀ (db : DB) (room fk : String) (tk : Option String) (dir : String)
        (limit : Int) (evs : List Annotated) (tok : String),
      (∀ r ∈ db, db.find? (fun e => e.event_id == r.event_id) = some r) →
      paginate_room_events db room fk tk dir limit = some (evs, tok) →
      ∀ a ∈ evs, a.event.outlier = false) ∧
    (∀ (db : DB) (cache : String → Int → Bool) (room : String)
        (fk : Option String) (tk : String) (limit : Int) (order : String)
        (res : StreamForRoomResult),
      (∀ r ∈ db, db.find? (fun e => e.event_id == r.event_id) = some r) →
      get_room_events_stream_for_room db cache room fk tk limit order =
        some res →
      ∀ a ∈ res.events, a.event.outlier = false) := by
  refine ⟨?_, ?_, ?_, ?_⟩
  · intro db room eid blim alim pin res o hpin hres ho hroom hlt hcount
    unfold get_events_around_txn at hres
    simp only [findPin] at hpin
    simp only [get_events_around_txn, findPin, hpin] at hres
    injection hres with h
    rw [← h]
    have hpred : around_before_pred room pin.topological_ordering
        pin.stream_ordering o = true := by
      rw [compLt] at hlt
      simp [around_before_pred, hroom]
      omega
    have hmemfilter : o ∈ db.filter (around_before_pred room
        pin.topological_ordering pin.stream_ordering) :=
      List.mem_filter.mpr ⟨ho, hpred⟩
    have hlen : (List.insertionSort compGe (db.filter (around_before_pred room
        pin.topological_ordering pin.stream_ordering))).length =
        (db.filter (around_before_pred room pin.topological_ordering
          pin.stream_ordering)).length :=
      (List.perm_insertionSort compGe _).length_eq
    have hmems : o ∈ List.insertionSort compGe (db.filter (around_before_pred
        room pin.topological_ordering pin.stream_ordering)) :=
      (List.mem_insertionSort _).mpr hmemfilter
    have hrowmem : o ∈ sqlLimit blim (List.insertionSort compGe
        (db.filter (around_before_pred room pin.topological_ordering
          pin.stream_ordering))) := by
      unfold sqlLimit
      split
      · exact hmems
      · rw [List.take_of_length_le (by rw [hlen]; exact hcount)]
        exact hmems
    exact List.mem_map_of_mem _ hrowmem
  · intro db room eid blim alim pin res o hpin hres ho hroom hlt hcount
    unfold get_events_around_txn at hres
    simp only [findPin] at hpin
    simp only [get_events_around_txn, findPin, hpin] at hres
    injection hres with h
    rw [← h]
    have hpred : around_after_pred room pin.topological_ordering
        pin.stream_ordering o = true := by
      rw [compLt] at hlt
      simp [around_after_pred, hroom]
      omega
    have hmemfilter : o ∈ db.filter (around_after_pred room
        pin.topological_ordering pin.stream_ordering) :=
      List.mem_filter.mpr ⟨ho, hpred⟩
    have hlen : (List.insertionSort compLe (db.filter (around_after_pred room
        pin.topological_ordering pin.stream_ordering))).length =
        (db.filter (around_after_pred room pin.topological_ordering
          pin.stream_ordering)).length :=
      (List.perm_insertionSort compLe _).length_eq
    have hmems : o ∈ List.insertionSort compLe (db.filter (around_after_pred
        room pin.topological_ordering pin.stream_ordering)) :=
      (List.mem_insertionSort _).mpr hmemfilter
    have hrowmem : o ∈ sqlLimit alim (List.insertionSort compLe
        (db.filter (around_after_pred room pin.topological_ordering
          pin.stream_ordering))) := by
      unfold sqlLimit
      split
      · exact hmems
      · rw [List.take_of_length_le (by rw [hlen]; exact hcount)]
        exact hmems
    exact List.mem_map_of_mem _ hrowmem
  · intro db room fk tk dir limit evs tok hfind hres
    have hmain : ∀ (q : Event → Bool) (rows : List Event),
        (∀ r ∈ rows, r ∈ db.filter q) →
        (∀ e, q e = true → e.outlier = false) →
        ∀ a ∈ set_before_and_after (get_events db (rows.map (·.event_id)))
            rows true,
          a.event.outlier = false := by
      intro q rows hsubf hq a ha
      have hsub : ∀ r ∈ rows, r ∈ db := fun r hr =>
        List.mem_of_mem_filter (hsubf r hr)
      rw [get_events_map_id db rows fun r hr => hfind r (hsub r hr)] at ha
      have hev : a.event ∈ rows := by
        have hm := List.mem_map_of_mem (fun x : Annotated => x.event) ha
        rw [set_self_map_event] at hm
        exact hm
      exact hq _ (List.mem_filter.mp (hsubf _ hev)).2
    have houtq : ∀ (b : Event → Bool) (e : Event),
        (!e.outlier && e.room_id == room && b e) = true → e.outlier = false := by
      intro b e hb
      simp only [Bool.and_eq_true, Bool.not_eq_true'] at hb
      exact hb.1.1
    have hsubrows : ∀ (q : Event → Bool),
        ∀ r ∈ (if limit > 0 then
          List.take limit.toNat (sortByComposite "DESC" (db.filter q))
        else sortByComposite "DESC" (db.filter q)), r ∈ db.filter q := by
      intro q r hr
      split at hr
      · exact mem_sortByComposite.mp (List.mem_of_mem_take hr)
      · exact mem_sortByComposite.mp hr
    have hsubrowsA : ∀ (q : Event → Bool),
        ∀ r ∈ (if limit > 0 then
          List.take limit.toNat (sortByComposite "ASC" (db.filter q))
        else sortByComposite "ASC" (db.filter q)), r ∈ db.filter q := by
      intro q r hr
      split at hr
      · exact mem_sortByComposite.mp (List.mem_of_mem_take hr)
      · exact mem_sortByComposite.mp hr
    unfold paginate_room_events at hres
    cases hfk : RoomStreamToken.parse fk with
    | none =>
      simp only [hfk] at hres
      exact Option.noConfusion hres
    | some ft =>
      by_cases hdir : dir = "b"
      · subst hdir
        by_cases htk : pyTruthyOptStr tk = true
        · cases htt : RoomStreamToken.parse (tk.getD "") with
          | none => simp [hfk, htk, htt] at hres
          | some ttok =>
            simp only [hfk, htk, htt, if_true, Option.some.injEq,
              Prod.mk.injEq] at hres
            obtain ⟨hevs, htok⟩ := hres
            rw [← hevs]
            exact hmain _ _ (hsubrows _) (houtq _)
        · rw [Bool.not_eq_true] at htk
          simp only [hfk, htk, Bool.false_eq_true, if_false, if_true,
            Option.some.injEq, Prod.mk.injEq] at hres
          obtain ⟨hevs, htok⟩ := hres
          rw [← hevs]
          exact hmain _ _ (hsubrows _) (houtq _)
      · by_cases htk : pyTruthyOptStr tk = true
        · cases htt : RoomStreamToken.parse (tk.getD "") with
          | none => simp [hfk, htk, htt, if_neg hdir] at hres
          | some ttok =>
            simp only [hfk, htk, htt, if_true, if_neg hdir, Option.some.injEq,
              Prod.mk.injEq] at hres
            obtain ⟨hevs, htok⟩ := hres
            rw [← hevs]
            exact hmain _ _ (hsubrowsA _) (houtq _)
        · rw [Bool.not_eq_true] at htk
          simp only [hfk, htk, Bool.false_eq_true, if_false, if_true,
            if_neg hdir, Option.some.injEq, Prod.mk.injEq] at hres
          obtain ⟨hevs, htok⟩ := hres
          rw [← hevs]
          exact hmain _ _ (hsubrowsA _) (houtq _)
  · intro db cache room fk tk limit order res hfind hres
    have hmain : ∀ (q : Event → Bool) (rows : List Event) (b : Bool),
        (∀ r ∈ rows, r ∈ db.filter q) →
        (∀ e, q e = true → e.outlier = false) →
        ∀ a ∈ set_before_and_after (get_events db (rows.map (·.event_id)))
            rows b,
          a.event.outlier = false := by
      intro q rows b hsubf hq a ha
      have hsub : ∀ r ∈ rows, r ∈ db := fun r hr =>
        List.mem_of_mem_filter (hsubf r hr)
      rw [get_events_map_id db rows fun r hr => hfind r (hsub r hr)] at ha
      have hev : a.event ∈ rows := by
        have hm := List.mem_map_of_mem (fun x : Annotated => x.event) ha
        rw [set_self_map_event] at hm
        exact hm
      exact hq _ (List.mem_filter.mp (hsubf _ hev)).2
    have houtq : ∀ (b : Event → Bool) (e : Event),
        (e.room_id == room && !e.outlier && b e) = true →
        e.outlier = false := by
      intro b e hb
      simp only [Bool.and_eq_true, Bool.not_eq_true'] at hb
      exact hb.1.2
    unfold get_room_events_stream_for_room at hres
    cases fk with
    | none =>
      cases htk : RoomStreamToken.parse_stream_token tk with
      | none =>
        simp only [htk] at hres
        exact Option.noConfusion hres
      | some tt =>
        simp only [htk] at hres
        by_cases hcache : (pyTruthyOptInt none
            && !cache room ((none : Option Int).getD 0)) = true
        · rw [if_pos hcache] at hres
          cases hres
          simp
        · rw [if_neg hcache] at hres
          cases hres
          intro a ha
          simp only at ha
          have ha2 : a ∈ set_before_and_after
              (get_events db ((sqlLimit limit (sortByComposite order
                (db.filter fun e => e.room_id == room && !e.outlier
                  && decide (e.stream_ordering ≤ tt.stream)))).map
                    (·.event_id)))
              (sqlLimit limit (sortByComposite order
                (db.filter fun e => e.room_id == room && !e.outlier
                  && decide (e.stream_ordering ≤ tt.stream))))
              (none : Option Int).isNone := by
            by_cases hdesc : orderDesc order = true
            · rw [if_pos hdesc] at ha
              exact List.mem_reverse.mp ha
            · rw [if_neg hdesc] at ha
              exact ha
          exact hmain _ _ _
            (fun r hr => mem_sortByComposite.mp (mem_sqlLimit hr))
            (houtq _) a ha2
    | some fk =>
      cases hfk : RoomStreamToken.parse_stream_token fk with
      | none =>
        simp only [hfk] at hres
        exact Option.noConfusion hres
      | some ft =>
        simp only [hfk] at hres
        cases htk : RoomStreamToken.parse_stream_token tk with
        | none =>
          simp only [htk] at hres
          exact Option.noConfusion hres
        | some tt =>
          simp only [htk] at hres
          by_cases heq : (some fk : Option String) = some tk
          · rw [if_pos heq] at hres
            cases hres
            simp
          · rw [if_neg heq] at hres
            by_cases hcache : (pyTruthyOptInt (some ft.stream)
                && !cache room ((some ft.stream).getD 0)) = true
            · rw [if_pos hcache] at hres
              cases hres
              simp
            · rw [if_neg hcache] at hres
              cases hres
              intro a ha
              simp only at ha
              have ha2 : a ∈ set_before_and_after
                  (get_events db ((sqlLimit limit (sortByStream order
                    (db.filter fun e => e.room_id == room && !e.outlier
                      && decide (ft.stream < e.stream_ordering)
                      && decide (e.stream_ordering ≤ tt.stream)))).map
                        (·.event_id)))
                  (sqlLimit limit (sortByStream order
                    (db.filter fun e => e.room_id == room && !e.outlier
                      && decide (ft.stream < e.stream_ordering)
                      && decide (e.stream_ordering ≤ tt.stream))))
                  (some ft.stream).isNone := by
                by_cases hdesc : orderDesc order = true
                · rw [if_pos hdesc] at ha
                  exact List.mem_reverse.mp ha
                · rw [if_neg hdesc] at ha
                  exact ha
              have houtq2 : ∀ e : Event,
                  (e.room_id == room && !e.outlier
                    && decide (ft.stream < e.stream_ordering)
                    && decide (e.stream_ordering ≤ tt.stream)) = true →
                  e.outlier = false := by
                intro e hb
                simp only [Bool.and_eq_true, Bool.not_eq_true'] at hb
                exact hb.1.1.2
              exact hmain _ _ _
                (fun r hr => mem_sortByStream.mp (mem_sqlLimit hr))
                houtq2 a ha2

/-- Witness for C10 on a three-event room: both the outlier before the pin
and the outlier after it appear in the context window, while a backward
pagination over the same room returns only the non-outlier pin. -/
theorem c10_outlier_context_window_witness :
    "ob" ∈ ((get_events_around_txn db10 "R" "p" 5 5).elim []
      AroundResult.before_ids) ∧
    "oa" ∈ ((get_events_around_txn db10 "R" "p" 5 5).elim []
      AroundResult.after_ids) ∧
    (paginate_room_events db10 "R" "t9-9" none "b" 10).map
      (fun pr => pr.1.map fun a => a.event.outlier) = some [false] := by
  refine ⟨?_, ?_, by decide⟩
  · cases h : get_events_around_txn db10 "R" "p" 5 5 with
    | none => exact absurd h (by decide)
    | some res =>
      have hm := c10_outlier_context_window.1 db10 "R" "p" 5 5 p10 res o10b
        (by decide) h (by decide) (by decide) (Or.inl (by decide)) (by decide)
      simpa using hm
  · cases h : get_events_around_txn db10 "R" "p" 5 5 with
    | none => exact absurd h (by decide)
    | some res =>
      have hm := c10_outlier_context_window.2.1 db10 "R" "p" 5 5 p10 res o10a
        (by decide) h (by decide) (by decide) (Or.inl (by decide)) (by decide)
      simpa using hm
